import Mathlib

/-!
Shallow embedding of drivers/mtd/mtd_virt_concat.c (virtual concat MTD
device driver) together with the parts of its environment the driver
observes: the device-tree configuration nodes consumed by
`mtd_virt_concat_node_create`, the MTD devices offered to
`mtd_virt_concat_add`, and the calls the driver makes into the external
concatenation engine (`mtd_concat_create` / `mtd_concat_destroy`), the
MTD registration layer (`mtd_device_register` / `mtd_device_unregister`)
and the device-reference scheme (`put_mtd_device`), recorded as events.

Allocation (`kzalloc` / `kcalloc` / `kmalloc`) is modelled by a fuel
counter: each allocation consumes one unit of fuel, and an allocation
fails exactly when the fuel is exhausted.
-/

namespace MtdVirtConcat

/-- Constant `MIN_DEV_PER_CONCAT` from mtd_virt_concat.c line 20. -/
def MIN_DEV_PER_CONCAT : Nat := 2

/-- The part of `struct mtd_info` the driver reads: `mtd->name` and
`mtd->dev.of_node`.  The of_node pointer may be NULL (`none`); device
identity of the underlying configuration node is a bare `Nat`. -/
structure MtdInfo where
  name : String
  of_node : Option Nat
  deriving DecidableEq

/-- One entry of `concat_node_list`: a `struct mtd_virt_concat_node`
together with the `struct mtd_concat` it owns (`item->concat`, allocated
by `mtd_virt_concat_create_item` and always non-NULL for a listed item).
* `count`   = `item->count`;
* `nodes`   = `item->nodes[0..count)`, the `of_parse_phandle` results
  (a failed resolution stores NULL = `none`, unchecked by the driver);
* `subdev`  = `item->concat->subdev[0..num_subdev)`, the matched devices
  in arrival order; `num_subdev` = `subdev.length`.
The `struct mtd_info mtd` embedded in `struct mtd_concat` stays zeroed:
no function of the driver ever writes it. -/
structure ConcatItem where
  count : Nat
  nodes : List (Option Nat)
  subdev : List MtdInfo
  deriving DecidableEq

/-- One device-tree node carrying the `CONCAT_PROP` (`part-concat`)
property, as the scan loop of `mtd_virt_concat_node_create` sees it:
`of_device_is_available` and the per-index `of_parse_phandle` results
(`refs.length` = `of_count_phandle_with_args`, the declared count;
an entry is `none` when the phandle does not resolve). -/
structure ConfigNode where
  available : Bool
  refs : List (Option Nat)
  deriving DecidableEq

/-- Calls the driver makes into its collaborators, in program order. -/
inductive Event where
  /-- Call `put_mtd_device(d)` — one member handle released. -/
  | put (d : MtdInfo)
  /-- Call `mtd_concat_create(subdev, num_subdev, name)` — the external
  concatenation engine invoked on the members in stored order. -/
  | build (devs : List MtdInfo) (name : String)
  /-- Call `mtd_device_register` of the device just built for these members. -/
  | publish (devs : List MtdInfo) (name : String)
  /-- Call `mtd_concat_destroy` of the device just built (label
  `destroy_concat` in `mtd_virt_concat_create_join`). -/
  | destroyJoin (name : String)
  /-- Call `mtd_device_unregister(&item->concat->mtd)` — note this is the
  embedded, still-zeroed `mtd_info`, not the device built by
  `mtd_virt_concat_create_join` (which is never stored in the item). -/
  | unregisterEmbedded
  /-- Call `mtd_concat_destroy(&item->concat->mtd)`, same embedded object. -/
  | destroyEmbedded
  deriving DecidableEq

/-- mtd_virt_concat.c lines 38-44, `mtd_virt_concat_put_mtd_devices`:
`put_mtd_device(concat->subdev[i])` for `i = 0 .. num_subdev-1`. -/
def mtd_virt_concat_put_mtd_devices (subdev : List MtdInfo) : List Event :=
  subdev.map Event.put

/-- mtd_virt_concat.c lines 127-146, `mtd_virt_concat_add(mtd)`.
Walks `concat_node_list` in insertion order; for each item:
if `item->count == concat->num_subdev` it RETURNS false at once
(it does not move on to the next item); otherwise, if any
`item->nodes[idx]` equals `mtd->dev.of_node`, stores `mtd` at
`concat->subdev[concat->num_subdev++]` and returns true; otherwise
continues with the next item.  Falls off the list with false.
Result: (return value, state of `concat_node_list` afterwards). -/
def mtd_virt_concat_add (mtd : MtdInfo) : List ConcatItem → Bool × List ConcatItem
  | [] => (false, [])
  | item :: rest =>
    if item.count == item.subdev.length then
      (false, item :: rest)
    else if item.nodes.contains mtd.of_node then
      (true, { item with subdev := item.subdev ++ [mtd] } :: rest)
    else
      let p := mtd_virt_concat_add mtd rest
      (p.1, item :: p.2)

/-- mtd_virt_concat.c lines 102-114, `mtd_virt_concat_destroy_items`:
for every item on `concat_node_list` it `of_node_put`s each stored node
reference, `kfree`s `item->nodes` and `kfree`s the item itself — but it
never calls `list_del(&item->head)`, so the list links are untouched and
`concat_node_list` still runs through the (now freed) entries.
Result: (items whose storage was freed, list state afterwards). -/
def mtd_virt_concat_destroy_items (l : List ConcatItem) :
    List ConcatItem × List ConcatItem :=
  (l, l)

/-- mtd_virt_concat.c lines 62-100, `mtd_virt_concat_create_item(parts, count)`
with allocation fuel.  The function performs four allocations in order —
`item` (kzalloc), `item->nodes` (kcalloc), `concat` (kzalloc),
`concat->subdev` (kcalloc) — so it fails with `-ENOMEM` (= -12) iff
`fuel < 4`, freeing what it had allocated (the error paths after the
`nodes` array exists leak it, which has no observable effect here), and
on success it consumes 4 fuel, fills `item->nodes[i]` with the
`of_parse_phandle(parts, CONCAT_PROP, i)` results UNCHECKED (a NULL
result is stored as is), sets `item->count = count`, leaves
`concat->num_subdev = 0`, and appends the item to `concat_node_list`
(`list_add_tail`).  Result: (return value, remaining fuel, list state). -/
def mtd_virt_concat_create_item (fuel : Nat) (refs : List (Option Nat))
    (reg : List ConcatItem) : Int × Nat × List ConcatItem :=
  if fuel < 4 then
    (-12, fuel, reg)
  else
    (0, fuel - 4, reg ++ [{ count := refs.length, nodes := refs, subdev := [] }])

/-- The do/while scan loop of `mtd_virt_concat_node_create`
(mtd_virt_concat.c lines 168-182).  `of_find_node_with_property`
enumerates the device-tree nodes carrying `CONCAT_PROP` in order (`cfg`);
a node failing `of_device_is_available` is skipped before `count` is
recomputed (`of_device_is_available(NULL)` is false, which ends the
loop); an available node updates `count` from
`of_count_phandle_with_args` and is skipped if `count <
MIN_DEV_PER_CONCAT`; otherwise `mtd_virt_concat_create_item` runs and a
non-zero result aborts the loop with that error.  Result: (loop error if
any, fuel, the C variable `count`, list state). -/
def node_create_scan (fuel count : Nat) (reg : List ConcatItem) :
    List ConfigNode → Option Int × Nat × Nat × List ConcatItem
  | [] => (none, fuel, count, reg)
  | n :: rest =>
    if !n.available then
      node_create_scan fuel count reg rest
    else
      let count := n.refs.length
      if count < MIN_DEV_PER_CONCAT then
        node_create_scan fuel count reg rest
      else
        let r := mtd_virt_concat_create_item fuel n.refs reg
        if r.1 = 0 then
          node_create_scan r.2.1 count r.2.2 rest
        else
          (some r.1, r.2.1, count, r.2.2)

/-- mtd_virt_concat.c lines 158-205, `mtd_virt_concat_node_create`.
If `concat_node_list` is non-empty it returns 0 at once.  Otherwise it
runs the scan loop; a loop error goes to `destroy_items` and is
returned.  After the loop two more allocations happen (a `struct
mtd_concat` and its `subdev` array — both leaked, stored nowhere), so
with fewer than 2 fuel left the function fails with `-ENOMEM` through
`destroy_items`; otherwise it returns the C variable `count` — i.e. the
`of_count_phandle_with_args` result of the LAST available node scanned —
not the number of items created.  `count0` stands for the indeterminate
initial value of the uninitialised local `count` (read only when no
available node exists).  Result: (return value, list state). -/
def mtd_virt_concat_node_create (fuel count0 : Nat) (cfg : List ConfigNode)
    (reg : List ConcatItem) : Int × List ConcatItem :=
  if !reg.isEmpty then
    (0, reg)
  else
    match node_create_scan fuel count0 reg cfg with
    | (some ret, _, _, r) => (ret, (mtd_virt_concat_destroy_items r).2)
    | (none, fuel2, count, r) =>
      if fuel2 < 2 then
        (-12, (mtd_virt_concat_destroy_items r).2)
      else
        ((count : Int), r)

/-- The name `mtd_virt_concat_create_join` synthesizes
(mtd_virt_concat.c lines 221-236): `snprintf`/`sprintf` with format
`"%s-%s%s-concat"` applied to `subdev[0]->name`, `subdev[1]->name`, and
`"-+"` when `num_subdev > MIN_DEV_PER_CONCAT` (else `""`). -/
def concatName (n0 n1 : String) (numSubdev : Nat) : String :=
  n0 ++ "-" ++ n1 ++ (if MIN_DEV_PER_CONCAT < numSubdev then "-+" else "") ++ "-concat"

/-- Outcome of `mtd_virt_concat_create_join`. -/
inductive JoinResult where
  /-- The function returned this code (0, -ENOMEM = -12, -ENXIO = -6, or
  a `mtd_device_register` error). -/
  | ret (code : Int)
  /-- The function dereferenced a NULL `concat->subdev[0]` or
  `concat->subdev[1]` pointer while computing the name — the kcalloc-ed
  `subdev` array entry of a group with fewer than 2 matched members. -/
  | nullDeref
  deriving DecidableEq

/-- mtd_virt_concat.c lines 208-260, `mtd_virt_concat_create_join`.
For EVERY item of `concat_node_list` (there is no completeness check):
reads `subdev[0]->name` and `subdev[1]->name` to size the name (a NULL
entry means a NULL dereference), `kmalloc`s the name (1 fuel; on failure
`mtd_virt_concat_put_mtd_devices(concat)` runs and `-ENOMEM` is
returned), calls `mtd_concat_create(concat->subdev, num_subdev, name)` —
modelled by the oracle `engineOk` deciding whether the engine returns a
device — and on engine failure `kfree`s the name and returns `-ENXIO`
WITHOUT putting the member devices; on engine success it copies
`subdev[0]`'s parent into the new device and calls
`mtd_device_register` — oracle `publishRet` — and a non-zero result goes
to `destroy_concat`: `mtd_concat_destroy` of the just-built device, then
that code is returned.  On success it continues with the next item and
finally returns 0.  The built device is kept only in a local; nothing is
written back into the item.  Result: (outcome, event trace). -/
def mtd_virt_concat_create_join (engineOk : List MtdInfo → String → Bool)
    (publishRet : List MtdInfo → String → Int) :
    Nat → List ConcatItem → JoinResult × List Event
  | _, [] => (.ret 0, [])
  | fuel, item :: rest =>
    match item.subdev.get? 0, item.subdev.get? 1 with
    | some d0, some d1 =>
      let name := concatName d0.name d1.name item.subdev.length
      match fuel with
      | 0 => (.ret (-12), mtd_virt_concat_put_mtd_devices item.subdev)
      | fuel + 1 =>
        if engineOk item.subdev name then
          let ret := publishRet item.subdev name
          if ret = 0 then
            let p := mtd_virt_concat_create_join engineOk publishRet fuel rest
            (p.1, Event.build item.subdev name :: Event.publish item.subdev name :: p.2)
          else
            (.ret ret, [Event.build item.subdev name,
                        Event.publish item.subdev name,
                        Event.destroyJoin name])
        else
          (.ret (-6), [Event.build item.subdev name])
    | _, _ => (.nullDeref, [])

/-- mtd_virt_concat.c lines 46-60, `mtd_virt_concat_destroy_joins`.
For every item of `concat_node_list`: the guard `if (item->concat)`
tests the `concat` POINTER, which `mtd_virt_concat_create_item` set
before listing the item, so it holds for every item — whether or not a
joined device was ever built (no joined handle is stored anywhere).  The
body then runs `mtd_device_unregister(&item->concat->mtd)`,
`kfree(mtd->name)` (the embedded name is NULL, a no-op), then
`mtd_concat_destroy` of the same embedded mtd, then
`mtd_virt_concat_put_mtd_devices(item->concat)`. -/
def mtd_virt_concat_destroy_joins : List ConcatItem → List Event
  | [] => []
  | item :: rest =>
    Event.unregisterEmbedded :: Event.destroyEmbedded ::
      mtd_virt_concat_put_mtd_devices item.subdev
      ++ mtd_virt_concat_destroy_joins rest

/-- mtd_virt_concat.c lines 264-268, `mtd_virt_concat_exit`:
`mtd_virt_concat_destroy_joins()` then `mtd_virt_concat_destroy_items()`.
Result: (teardown events, list state afterwards). -/
def mtd_virt_concat_exit (l : List ConcatItem) : List Event × List ConcatItem :=
  (mtd_virt_concat_destroy_joins l, (mtd_virt_concat_destroy_items l).2)

/-- Scenario driver: the host environment invokes `mtd_virt_concat_add`
once per arriving device, in arrival order.  Result: (the return values,
the final list state). -/
def offerSequence : List MtdInfo → List ConcatItem → List Bool × List ConcatItem
  | [], reg => ([], reg)
  | d :: ds, reg =>
    let p := mtd_virt_concat_add d reg
    let q := offerSequence ds p.2
    (p.1 :: q.1, q.2)

/-- A configuration node the scan turns into a registry item: available
and declaring at least `MIN_DEV_PER_CONCAT` member references. -/
def qualifies (n : ConfigNode) : Bool :=
  n.available && decide (MIN_DEV_PER_CONCAT ≤ n.refs.length)

/-- The registry item `mtd_virt_concat_create_item` builds for a node. -/
def itemOf (n : ConfigNode) : ConcatItem :=
  { count := n.refs.length, nodes := n.refs, subdev := [] }

/-- The value of the C variable `count` after the scan loop: the
declared reference count of the last available node, or the initial
(indeterminate) value if no node is available. -/
def lastScannedCount (count0 : Nat) : List ConfigNode → Nat
  | [] => count0
  | n :: rest => lastScannedCount (if n.available then n.refs.length else count0) rest

end MtdVirtConcat

namespace MtdVirtConcat

/-! ## Helper lemmas -/

theorem contains_eq_true_iff (l : List (Option Nat)) (a : Option Nat) :
    l.contains a = true ↔ a ∈ l := by
  induction l with
  | nil => simp
  | cons x xs ih => simp [List.contains_cons] at ih ⊢

theorem add_eq_of_complete (d : MtdInfo) (item : ConcatItem) (rest : List ConcatItem)
    (h : item.count = item.subdev.length) :
    mtd_virt_concat_add d (item :: rest) = (false, item :: rest) := by
  simp [mtd_virt_concat_add, h]

theorem add_eq_of_match (d : MtdInfo) (item : ConcatItem) (rest : List ConcatItem)
    (h1 : item.count ≠ item.subdev.length)
    (h2 : item.nodes.contains d.of_node = true) :
    mtd_virt_concat_add d (item :: rest)
      = (true, { item with subdev := item.subdev ++ [d] } :: rest) := by
  have hb : (item.count == item.subdev.length) = false := by simpa using h1
  simp only [mtd_virt_concat_add, hb, h2]
  simp

theorem add_eq_of_skip (d : MtdInfo) (item : ConcatItem) (rest : List ConcatItem)
    (h1 : item.count ≠ item.subdev.length)
    (h2 : item.nodes.contains d.of_node = false) :
    mtd_virt_concat_add d (item :: rest)
      = ((mtd_virt_concat_add d rest).1, item :: (mtd_virt_concat_add d rest).2) := by
  have hb : (item.count == item.subdev.length) = false := by simpa using h1
  simp only [mtd_virt_concat_add, hb, h2]
  simp

end MtdVirtConcat

namespace MtdVirtConcat

theorem string_append_assoc (a b c : String) : a ++ b ++ c = a ++ (b ++ c) := by
  apply String.ext
  simp

theorem string_append_empty (a : String) : a ++ "" = a := by
  apply String.ext
  simp

/-- The synthesized name spelt out: marker suffix exactly when more than
`MIN_DEV_PER_CONCAT` members. -/
theorem concatName_eq (n0 n1 : String) (k : Nat) :
    concatName n0 n1 k
      = if 2 < k then n0 ++ "-" ++ n1 ++ "-+-concat"
        else n0 ++ "-" ++ n1 ++ "-concat" := by
  unfold concatName MIN_DEV_PER_CONCAT
  by_cases h : 2 < k
  · simp only [if_pos h]
    rw [string_append_assoc]
    rfl
  · simp only [if_neg h]
    rw [string_append_empty]

/-! ## Concrete fixtures used by the scenario theorems -/

/-- A device whose configuration identifier is node 1. -/
def devA : MtdInfo := { name := "a", of_node := some 1 }

/-- A device whose configuration identifier is node 2. -/
def devB : MtdInfo := { name := "b", of_node := some 2 }

/-- A device whose configuration identifier is node 3. -/
def devC : MtdInfo := { name := "c", of_node := some 3 }

/-- An engine oracle on which `mtd_concat_create` always succeeds. -/
def engineAlways : List MtdInfo → String → Bool := fun _ _ => true

/-- An engine oracle on which `mtd_concat_create` always returns NULL. -/
def engineNever : List MtdInfo → String → Bool := fun _ _ => false

/-- A publication oracle on which `mtd_device_register` always succeeds. -/
def publishOk : List MtdInfo → String → Int := fun _ _ => 0

end MtdVirtConcat

namespace MtdVirtConcat

/-! ## Counterexamples and failing-input evaluations -/

/-- C1 (counterexample): a registry whose first group is complete and
whose second, incomplete group expects node 3.  Offering a device with
identifier 3 returns false and examines no group after the complete one
— `mtd_virt_concat_add` returns false at the first complete group
instead of skipping it, although the identifier appears in the expected
list of a later not-yet-complete group. -/
theorem c1_counterexample_scan_aborts_at_complete_group :
    mtd_virt_concat_add devC
        [{ count := 2, nodes := [some 1, some 2], subdev := [devA, devB] },
         { count := 2, nodes := [some 3, some 4], subdev := [] }]
      = (false,
         [{ count := 2, nodes := [some 1, some 2], subdev := [devA, devB] },
          { count := 2, nodes := [some 3, some 4], subdev := [] }])
    ∧ devC.of_node ∈ ([some 3, some 4] : List (Option Nat))
    ∧ ({ count := 2, nodes := [some 3, some 4], subdev := [] } : ConcatItem).subdev.length
        ≠ ({ count := 2, nodes := [some 3, some 4], subdev := [] } : ConcatItem).count := by
  refine ⟨rfl, by decide, by decide⟩

/-- C2 (counterexample): one qualifying group declaring 3 members.  The
first `mtd_virt_concat_node_create` call returns 3 — the
`of_count_phandle_with_args` result of the last node scanned — not the
number of qualifying groups, which is 1. -/
theorem c2_counterexample_returns_member_count :
    mtd_virt_concat_node_create 6 0
        [{ available := true, refs := [some 1, some 2, some 3] }] []
      = (3, [{ count := 3, nodes := [some 1, some 2, some 3], subdev := [] }])
    ∧ (List.filter qualifies
        [{ available := true, refs := [some 1, some 2, some 3] }]).length = 1
    ∧ (3 : Int) ≠ 1 := by
  refine ⟨rfl, rfl, by decide⟩

/-- C3 (failing-input evaluation): a registry with one group expecting
[node 1, node 2] where only the device for node 1 ever arrived.
`mtd_virt_concat_create_join` does not skip the incomplete group: it
reads `concat->subdev[1]->name` — a NULL pointer dereference — while
sizing the unified name, instead of returning success with no join. -/
theorem c3_incomplete_group_null_dereference :
    mtd_virt_concat_create_join engineAlways publishOk 5
        [{ count := 2, nodes := [some 1, some 2], subdev := [devA] }]
      = (JoinResult.nullDeref, []) := rfl

/-- C4 (counterexample): a complete two-member group whose engine
`build` fails.  `mtd_virt_concat_create_join` returns `-ENXIO` having
emitted only the engine call: no `put_mtd_device` happens for either
member, contradicting the claim that the member handles are released
before the error returns. -/
theorem c4_counterexample_build_failure_leaks_members :
    mtd_virt_concat_create_join engineNever publishOk 5
        [{ count := 2, nodes := [some 1, some 2], subdev := [devA, devB] }]
      = (JoinResult.ret (-6), [Event.build [devA, devB] "a-b-concat"])
    ∧ Event.put devA
        ∉ (mtd_virt_concat_create_join engineNever publishOk 5
            [{ count := 2, nodes := [some 1, some 2], subdev := [devA, devB] }]).2
    ∧ Event.put devB
        ∉ (mtd_virt_concat_create_join engineNever publishOk 5
            [{ count := 2, nodes := [some 1, some 2], subdev := [devA, devB] }]).2 := by
  refine ⟨rfl, by decide, by decide⟩

/-- C5 (failing-input evaluation): one qualifying group and allocation
fuel 4, so the four allocations of `mtd_virt_concat_create_item` succeed
and the trailing `kzalloc` of `mtd_virt_concat_node_create` fails.  The
call returns `-ENOMEM` and `mtd_virt_concat_destroy_items` frees the
created descriptor (first component) — but, lacking any `list_del`, the
registry list still holds the entry afterwards: it is not empty, and the
dangling state is observable by any subsequent operation. -/
theorem c5_failed_discover_leaves_dangling_registry :
    mtd_virt_concat_node_create 4 0
        [{ available := true, refs := [some 1, some 2] }] []
      = (-12, [{ count := 2, nodes := [some 1, some 2], subdev := [] }])
    ∧ ([{ count := 2, nodes := [some 1, some 2], subdev := [] }] : List ConcatItem) ≠ []
    ∧ (mtd_virt_concat_destroy_items
          [{ count := 2, nodes := [some 1, some 2], subdev := [] }]).1
        = [{ count := 2, nodes := [some 1, some 2], subdev := [] }] := by
  refine ⟨rfl, by decide, rfl⟩

/-- C8 (counterexample): a group that was never joined (no member ever
arrived, and `mtd_virt_concat_create_join` stores no joined handle in
any case) is nevertheless passed to the unpublish/destroy path by
`mtd_virt_concat_destroy_joins`, because its guard `if (item->concat)`
tests the always-non-NULL container pointer, not joined-ness. -/
theorem c8_counterexample_unjoined_group_torn_down :
    mtd_virt_concat_destroy_joins
        [{ count := 2, nodes := [some 1, some 2], subdev := [] }]
      = [Event.unregisterEmbedded, Event.destroyEmbedded]
    ∧ Event.unregisterEmbedded
        ∈ mtd_virt_concat_destroy_joins
            [{ count := 2, nodes := [some 1, some 2], subdev := [] }] := by
  refine ⟨rfl, by decide⟩

/-- C10 (counterexample): the claim quantifies over EVERY registry
containing an incomplete group with a null expected entry, but when a
complete group precedes it in insertion order, `mtd_virt_concat_add`
returns false for a null-identifier device without reaching that group
(same early return as C1). -/
theorem c10_counterexample_null_match_blocked :
    mtd_virt_concat_add { name := "x", of_node := none }
        [{ count := 2, nodes := [some 1, some 2], subdev := [devA, devB] },
         { count := 2, nodes := [none, some 3], subdev := [] }]
      = (false,
         [{ count := 2, nodes := [some 1, some 2], subdev := [devA, devB] },
          { count := 2, nodes := [none, some 3], subdev := [] }])
    ∧ none ∈ ([none, some 3] : List (Option Nat))
    ∧ ({ count := 2, nodes := [none, some 3], subdev := [] } : ConcatItem).subdev.length
        ≠ ({ count := 2, nodes := [none, some 3], subdev := [] } : ConcatItem).count := by
  refine ⟨rfl, by decide, by decide⟩

end MtdVirtConcat

namespace MtdVirtConcat

/-! ## C1: characterization of the arrival matcher -/

/-- C1 (amended): `mtd_virt_concat_add d` returns true iff, scanning the
registry in insertion order, a group whose expected list contains `d`'s
identifier is reached before the scan hits a complete group — that is,
every earlier group is both incomplete and unmatched, and the matching
group is itself incomplete; in that case exactly that group's members
grow by `d`.  Whenever it returns false the registry is unchanged.  In
particular the scan ABORTS at the first complete group instead of
skipping it: groups after a complete group are never examined. -/
theorem c1_offer_scan_characterization (d : MtdInfo) (r : List ConcatItem) :
    ((mtd_virt_concat_add d r).1 = true ↔
      ∃ pre g post, r = pre ++ g :: post
        ∧ (∀ g' ∈ pre, g'.count ≠ g'.subdev.length
            ∧ g'.nodes.contains d.of_node = false)
        ∧ g.count ≠ g.subdev.length
        ∧ g.nodes.contains d.of_node = true
        ∧ (mtd_virt_concat_add d r).2
            = pre ++ { g with subdev := g.subdev ++ [d] } :: post)
    ∧ ((mtd_virt_concat_add d r).1 = false → (mtd_virt_concat_add d r).2 = r) := by
  induction r with
  | nil =>
    refine ⟨⟨fun h => by simp [mtd_virt_concat_add] at h, ?_⟩, fun _ => rfl⟩
    rintro ⟨pre, g, post, hdec, -⟩
    exact absurd hdec (by simp)
  | cons item rest ih =>
    by_cases hc : item.count = item.subdev.length
    · rw [add_eq_of_complete d item rest hc]
      refine ⟨⟨fun h => absurd h (by simp), ?_⟩, fun _ => rfl⟩
      rintro ⟨pre, g, post, hdec, hpre, hg1, hg2, h2⟩
      cases pre with
      | nil =>
        simp only [List.nil_append, List.cons.injEq] at hdec
        exact absurd (hdec.1 ▸ hc) hg1
      | cons p pre' =>
        simp only [List.cons_append, List.cons.injEq] at hdec
        exact absurd (hdec.1 ▸ hc) (hpre p (by simp)).1
    · by_cases hm : item.nodes.contains d.of_node = true
      · rw [add_eq_of_match d item rest hc hm]
        exact ⟨⟨fun _ => ⟨[], item, rest, rfl, by simp, hc, hm, rfl⟩,
                fun _ => rfl⟩,
               fun h => absurd h (by simp)⟩
      · have hm' : item.nodes.contains d.of_node = false := by simpa using hm
        rw [add_eq_of_skip d item rest hc hm']
        obtain ⟨ih1, ih2⟩ := ih
        refine ⟨⟨?_, ?_⟩, ?_⟩
        · intro h
          obtain ⟨pre, g, post, hdec, hpre, hg1, hg2, h2⟩ := ih1.mp h
          refine ⟨item :: pre, g, post, by simp [hdec], ?_, hg1, hg2, by simp [h2]⟩
          intro g' hg'
          rcases List.mem_cons.mp hg' with h' | h'
          · exact h' ▸ ⟨hc, hm'⟩
          · exact hpre g' h'
        · rintro ⟨pre, g, post, hdec, hpre, hg1, hg2, h2⟩
          cases pre with
          | nil =>
            simp only [List.nil_append, List.cons.injEq] at hdec
            have hgf : g.nodes.contains d.of_node = false := hdec.1 ▸ hm'
            rw [hg2] at hgf
            cases hgf
          | cons p pre' =>
            simp only [List.cons_append, List.cons.injEq] at hdec
            simp only [List.cons_append, List.cons.injEq] at h2
            exact ih1.mpr ⟨pre', g, post, hdec.2, fun g' hg' => hpre g' (by simp [hg']),
                           hg1, hg2, h2.2⟩
        · intro h
          exact congrArg (item :: ·) (ih2 h)
end MtdVirtConcat

namespace MtdVirtConcat

/-- C1 witness: the characterization applied at a concrete device that
matches nothing — the offer returns false and the registry is unchanged. -/
theorem c1_offer_scan_characterization_witness :
    (mtd_virt_concat_add { name := "x", of_node := some 9 }
        [{ count := 2, nodes := [some 1, some 2], subdev := [] }]).2
      = [{ count := 2, nodes := [some 1, some 2], subdev := [] }] :=
  (c1_offer_scan_characterization { name := "x", of_node := some 9 }
      [{ count := 2, nodes := [some 1, some 2], subdev := [] }]).2 rfl

/-! ## C7: the members-bounded-by-expected invariant -/

/-- Offering any device preserves `num_subdev <= count` for every group. -/
theorem add_preserves_members_bound (d : MtdInfo) (r : List ConcatItem)
    (hinv : ∀ g ∈ r, g.subdev.length ≤ g.count) :
    ∀ g ∈ (mtd_virt_concat_add d r).2, g.subdev.length ≤ g.count := by
  induction r with
  | nil => simp [mtd_virt_concat_add]
  | cons item rest ih =>
    by_cases hc : item.count = item.subdev.length
    · rw [add_eq_of_complete d item rest hc]
      exact hinv
    · by_cases hm : item.nodes.contains d.of_node = true
      · rw [add_eq_of_match d item rest hc hm]
        intro g hg
        rcases List.mem_cons.mp hg with h' | h'
        · subst h'
          have h1 := hinv item (by simp)
          simp only [List.length_append, List.length_singleton]
          omega
        · exact hinv g (by simp [h'])
      · have hm' : item.nodes.contains d.of_node = false := by simpa using hm
        rw [add_eq_of_skip d item rest hc hm']
        intro g hg
        rcases List.mem_cons.mp hg with h' | h'
        · exact h' ▸ hinv item (by simp)
        · exact ih (fun g' hg' => hinv g' (by simp [hg'])) g h'

/-- A complete group is never modified (nor dropped) by an offer. -/
theorem add_keeps_complete_groups (d : MtdInfo) (r : List ConcatItem) :
    ∀ g ∈ r, g.count = g.subdev.length → g ∈ (mtd_virt_concat_add d r).2 := by
  induction r with
  | nil => simp
  | cons item rest ih =>
    intro g hg hgc
    by_cases hc : item.count = item.subdev.length
    · rw [add_eq_of_complete d item rest hc]
      exact hg
    · by_cases hm : item.nodes.contains d.of_node = true
      · rw [add_eq_of_match d item rest hc hm]
        rcases List.mem_cons.mp hg with h' | h'
        · subst h'
          exact absurd hgc hc
        · exact List.mem_cons_of_mem _ h'
      · have hm' : item.nodes.contains d.of_node = false := by simpa using hm
        rw [add_eq_of_skip d item rest hc hm']
        rcases List.mem_cons.mp hg with h' | h'
        · exact h' ▸ List.mem_cons_self _ _
        · exact List.mem_cons_of_mem _ (ih g h' hgc)

/-- Every group the scan loop ever lists starts with empty members. -/
theorem node_create_scan_subdev_nil (cfg : List ConfigNode) : ∀ fuel count0 reg,
    (∀ g ∈ reg, g.subdev = []) →
    ∀ g ∈ (node_create_scan fuel count0 reg cfg).2.2.2, g.subdev = [] := by
  induction cfg with
  | nil =>
    intro fuel count0 reg h
    simpa [node_create_scan] using h
  | cons n rest ih =>
    intro fuel count0 reg h
    by_cases ha : n.available
    · by_cases hq : n.refs.length < MIN_DEV_PER_CONCAT
      · simp only [node_create_scan, ha, Bool.not_true, Bool.false_eq_true,
                   if_false, if_pos hq]
        exact ih _ _ _ h
      · by_cases hf : fuel < 4
        · simp only [node_create_scan, ha, Bool.not_true, Bool.false_eq_true,
                     if_false, if_neg hq, mtd_virt_concat_create_item, if_pos hf]
          norm_num
          exact h
        · simp only [node_create_scan, ha, Bool.not_true, Bool.false_eq_true,
                     if_false, if_neg hq, mtd_virt_concat_create_item, if_neg hf]
          norm_num
          refine ih _ _ _ ?_
          intro g hg
          rcases List.mem_append.mp hg with h' | h'
          · exact h g h'
          · simp only [List.mem_singleton] at h'
            subst h'
            rfl
    · simp only [node_create_scan, ha, Bool.not_false, if_true]
      exact ih _ _ _ h

/-- C7: for every registry state satisfying the invariant
`len(members) <= len(expected)` (as the code compares them:
`num_subdev <= item->count`), `mtd_virt_concat_add` preserves the
invariant; a group that is already complete is never grown (it is left
in the registry untouched); and the registry produced by a fresh
`mtd_virt_concat_node_create` call satisfies the invariant (every
created group starts with `num_subdev = 0`), so the invariant holds in
every reachable state.  `mtd_virt_concat_create_join` does not write any
group's `subdev`/`count` at all (its result is a code and a call trace),
so it preserves the invariant trivially. -/
theorem c7_members_never_exceed_expected (d : MtdInfo) (r : List ConcatItem)
    (hinv : ∀ g ∈ r, g.subdev.length ≤ g.count) :
    (∀ g ∈ (mtd_virt_concat_add d r).2, g.subdev.length ≤ g.count)
    ∧ (∀ g ∈ r, g.count = g.subdev.length → g ∈ (mtd_virt_concat_add d r).2)
    ∧ (∀ fuel count0 cfg,
        ∀ g ∈ (mtd_virt_concat_node_create fuel count0 cfg []).2,
          g.subdev.length ≤ g.count) := by
  refine ⟨add_preserves_members_bound d r hinv, add_keeps_complete_groups d r, ?_⟩
  intro fuel count0 cfg g hg
  have hnil : ∀ g' ∈ (node_create_scan fuel count0 [] cfg).2.2.2, g'.subdev = [] :=
    node_create_scan_subdev_nil cfg fuel count0 [] (by simp)
  have hsub : g.subdev = [] := by
    unfold mtd_virt_concat_node_create at hg
    simp only [List.isEmpty_nil, Bool.not_true, Bool.false_eq_true, if_false] at hg
    rcases hscan : node_create_scan fuel count0 [] cfg with ⟨err, fuel2, count, reg2⟩
    rw [hscan] at hg hnil
    cases err with
    | some e =>
      simp only [mtd_virt_concat_destroy_items] at hg
      exact hnil g hg
    | none =>
      by_cases h2 : fuel2 < 2
      · simp only [if_pos h2, mtd_virt_concat_destroy_items] at hg
        exact hnil g hg
      · simp only [if_neg h2] at hg
        exact hnil g hg
  simp [hsub]

end MtdVirtConcat

namespace MtdVirtConcat

/-- C7 witness: the invariant theorem applied at a concrete offer into a
one-group registry holding one of two expected members. -/
theorem c7_members_never_exceed_expected_witness :
    (∀ g ∈ ([{ count := 2, nodes := [some 1, some 2], subdev := [devA] }] :
        List ConcatItem), g.subdev.length ≤ g.count)
    ∧ ((∀ g ∈ (mtd_virt_concat_add devB
            [{ count := 2, nodes := [some 1, some 2], subdev := [devA] }]).2,
          g.subdev.length ≤ g.count)
      ∧ (∀ g ∈ ([{ count := 2, nodes := [some 1, some 2], subdev := [devA] }] :
            List ConcatItem),
          g.count = g.subdev.length → g ∈ (mtd_virt_concat_add devB
            [{ count := 2, nodes := [some 1, some 2], subdev := [devA] }]).2)
      ∧ (∀ fuel count0 cfg,
          ∀ g ∈ (mtd_virt_concat_node_create fuel count0 cfg []).2,
            g.subdev.length ≤ g.count)) :=
  ⟨by decide,
   c7_members_never_exceed_expected devB
     [{ count := 2, nodes := [some 1, some 2], subdev := [devA] }] (by decide)⟩

/-! ## C2: what discover builds and what it returns -/

/-- The scan loop on sufficient fuel: no error, 4 fuel consumed per
qualifying node, the C variable `count` ends as the last available
node's declared count, and one descriptor per qualifying node is
appended in discovery order. -/
theorem node_create_scan_ok (cfg : List ConfigNode) : ∀ fuel count0 reg,
    4 * (cfg.filter qualifies).length ≤ fuel →
    node_create_scan fuel count0 reg cfg
      = (none, fuel - 4 * (cfg.filter qualifies).length,
         lastScannedCount count0 cfg,
         reg ++ (cfg.filter qualifies).map itemOf) := by
  induction cfg with
  | nil =>
    intro fuel count0 reg h
    simp [node_create_scan, lastScannedCount]
  | cons n rest ih =>
    intro fuel count0 reg h
    by_cases ha : n.available
    · by_cases hq : n.refs.length < MIN_DEV_PER_CONCAT
      · have hqf : qualifies n = false := by
          simp only [qualifies, ha, Bool.true_and, decide_eq_false_iff_not]
          omega
        have hfilter : (n :: rest).filter qualifies = rest.filter qualifies := by
          simp [List.filter_cons, hqf]
        rw [hfilter] at h ⊢
        simp only [node_create_scan, ha, Bool.not_true, Bool.false_eq_true,
                   if_false, if_pos hq]
        rw [ih fuel n.refs.length reg h]
        simp [lastScannedCount, ha]
      · have hqt : qualifies n = true := by
          simp only [qualifies, ha, Bool.true_and, decide_eq_true_eq]
          omega
        have hfilter : (n :: rest).filter qualifies = n :: rest.filter qualifies := by
          simp [List.filter_cons, hqt]
        rw [hfilter] at h ⊢
        simp only [List.length_cons] at h
        have h4 : ¬ fuel < 4 := by omega
        simp only [node_create_scan, ha, Bool.not_true, Bool.false_eq_true,
                   if_false, if_neg hq, mtd_virt_concat_create_item, if_neg h4]
        norm_num
        rw [ih (fuel - 4) n.refs.length _ (by omega)]
        simp only [Prod.mk.injEq, List.length_cons, List.map_cons,
                   List.append_assoc, List.singleton_append, true_and,
                   lastScannedCount, ha, if_true]
        refine ⟨by omega, ?_⟩
        simp [itemOf]
    · have ha2 : n.available = false := by simpa using ha
      have hqf : qualifies n = false := by simp [qualifies, ha2]
      have hfilter : (n :: rest).filter qualifies = rest.filter qualifies := by
        simp [List.filter_cons, hqf]
      rw [hfilter] at h ⊢
      simp only [node_create_scan, ha2, Bool.not_false, if_true]
      rw [ih fuel count0 reg h]
      simp [lastScannedCount, ha2]

/-- C2 (amended): on a first call (empty registry) with enough memory,
`mtd_virt_concat_node_create` creates one Group Descriptor per
qualifying configuration node (available, at least `MIN_DEV_PER_CONCAT`
declared references), in discovery order, each with `count` and expected
list equal to the node's declared references — so the registry does hold
exactly N descriptors with matching expected lengths — BUT the
function's return value is the declared reference count of the LAST
available node scanned (the C variable `count`), not N. -/
theorem c2_discover_registry_and_return (fuel count0 : Nat) (cfg : List ConfigNode)
    (h : 4 * (cfg.filter qualifies).length + 2 ≤ fuel) :
    mtd_virt_concat_node_create fuel count0 cfg []
      = ((lastScannedCount count0 cfg : Int), (cfg.filter qualifies).map itemOf)
    ∧ ((cfg.filter qualifies).map itemOf).length = (cfg.filter qualifies).length
    ∧ ∀ g ∈ (cfg.filter qualifies).map itemOf,
        g.nodes.length = g.count ∧ g.subdev = [] := by
  refine ⟨?_, by simp, ?_⟩
  · unfold mtd_virt_concat_node_create
    simp only [List.isEmpty_nil, Bool.not_true, Bool.false_eq_true, if_false]
    rw [node_create_scan_ok cfg fuel count0 [] (by omega)]
    have h2 : ¬ (fuel - 4 * (cfg.filter qualifies).length < 2) := by omega
    simp [h2]
  · intro g hg
    rcases List.mem_map.mp hg with ⟨n, hn, rfl⟩
    exact ⟨rfl, rfl⟩

/-- A configuration with two qualifying groups (3 and 2 declared
members), one disabled node and one under-sized node. -/
def cfgTwoGroups : List ConfigNode :=
  [{ available := true, refs := [some 1, some 2, some 3] },
   { available := false, refs := [some 9, some 10] },
   { available := true, refs := [some 4] },
   { available := true, refs := [some 5, some 6] }]

/-- C2 witness: the theorem applied to `cfgTwoGroups` with fuel 10. -/
theorem c2_discover_registry_and_return_witness :
    4 * ((cfgTwoGroups.filter qualifies).length) + 2 ≤ 10
    ∧ (mtd_virt_concat_node_create 10 0 cfgTwoGroups []
        = ((lastScannedCount 0 cfgTwoGroups : Int),
           (cfgTwoGroups.filter qualifies).map itemOf)
      ∧ ((cfgTwoGroups.filter qualifies).map itemOf).length
          = (cfgTwoGroups.filter qualifies).length
      ∧ ∀ g ∈ (cfgTwoGroups.filter qualifies).map itemOf,
          g.nodes.length = g.count ∧ g.subdev = []) :=
  ⟨by decide, c2_discover_registry_and_return 10 0 cfgTwoGroups (by decide)⟩

end MtdVirtConcat

namespace MtdVirtConcat

/-! ## C6 and C9: what the finalizer hands to the engine -/

/-- For a head group with at least two members, the finalizer's first
collaborator call is the engine build on exactly the stored member list
with the synthesized name, whatever the oracles answer. -/
theorem create_join_build_head (engineOk : List MtdInfo → String → Bool)
    (publishRet : List MtdInfo → String → Int) (fuel : Nat)
    (item : ConcatItem) (rest : List ConcatItem)
    (d0 d1 : MtdInfo) (ds : List MtdInfo)
    (hs : item.subdev = d0 :: d1 :: ds) :
    ∃ res tail,
      mtd_virt_concat_create_join engineOk publishRet (fuel + 1) (item :: rest)
        = (res, Event.build item.subdev
            (concatName d0.name d1.name item.subdev.length) :: tail) := by
  simp only [mtd_virt_concat_create_join, hs]
  simp only [List.get?]
  generalize concatName d0.name d1.name (d0 :: d1 :: ds).length = nm
  by_cases heng : engineOk (d0 :: d1 :: ds) nm
  · by_cases hpub : publishRet (d0 :: d1 :: ds) nm = 0
    · exact ⟨(mtd_virt_concat_create_join engineOk publishRet fuel rest).1,
             Event.publish (d0 :: d1 :: ds) nm ::
               (mtd_virt_concat_create_join engineOk publishRet fuel rest).2,
             by simp [heng, hpub]⟩
    · exact ⟨.ret (publishRet (d0 :: d1 :: ds) nm),
             [Event.publish (d0 :: d1 :: ds) nm, Event.destroyJoin nm],
             by simp [heng, hpub]⟩
  · exact ⟨.ret (-6), [], by simp [heng]⟩

/-- Offering devices that all match an incomplete single-group registry
appends each device in arrival order, every offer returning true. -/
theorem offerSequence_fills (ds : List MtdInfo) : ∀ item : ConcatItem,
    (∀ d ∈ ds, item.nodes.contains d.of_node = true) →
    item.subdev.length + ds.length ≤ item.count →
    offerSequence ds [item]
      = (List.replicate ds.length true,
         [{ item with subdev := item.subdev ++ ds }]) := by
  induction ds with
  | nil =>
    intro item _ _
    simp [offerSequence]
  | cons d ds ih =>
    intro item hmem hlen
    have hne : item.count ≠ item.subdev.length := by
      simp only [List.length_cons] at hlen
      omega
    simp only [offerSequence]
    rw [add_eq_of_match d item [] hne (hmem d (by simp))]
    rw [ih { item with subdev := item.subdev ++ [d] }
        (fun d2 hd2 => hmem d2 (by simp [hd2]))
        (by simp only [List.length_cons] at hlen
            simp only [List.length_append, List.length_singleton]
            omega)]
    simp [List.replicate_succ, List.append_assoc]

/-- C6: for a group alone in the registry whose expected identifier list
is matched, in any order, by a sequence of arriving devices (a
permutation), every offer returns true, the group ends complete with
`members` in exactly ARRIVAL order (not declared order), and
`mtd_virt_concat_create_join` then hands precisely that arrival-ordered
member list to the concatenation engine's build call. -/
theorem c6_members_in_arrival_order (expected : List (Option Nat)) (ds : List MtdInfo)
    (engineOk : List MtdInfo → String → Bool)
    (publishRet : List MtdInfo → String → Int) (fuel : Nat)
    (h2 : 2 ≤ expected.length)
    (hperm : (ds.map MtdInfo.of_node).Perm expected) :
    (offerSequence ds [{ count := expected.length, nodes := expected, subdev := [] }]).1
        = List.replicate ds.length true
    ∧ (offerSequence ds [{ count := expected.length, nodes := expected, subdev := [] }]).2
        = [{ count := expected.length, nodes := expected, subdev := ds }]
    ∧ ds.length = expected.length
    ∧ ∃ res nm tail,
        mtd_virt_concat_create_join engineOk publishRet (fuel + 1)
            [{ count := expected.length, nodes := expected, subdev := ds }]
          = (res, Event.build ds nm :: tail) := by
  have hlen : ds.length = expected.length := by
    have h := hperm.length_eq
    simpa using h
  have hmem : ∀ d ∈ ds, expected.contains d.of_node = true := by
    intro d hd
    rw [contains_eq_true_iff]
    exact hperm.mem_iff.mp (List.mem_map_of_mem _ hd)
  have hfill := offerSequence_fills ds
      { count := expected.length, nodes := expected, subdev := [] }
      hmem (by simp [hlen])
  refine ⟨by rw [hfill], by rw [hfill]; rfl, hlen, ?_⟩
  cases ds with
  | nil =>
    exfalso
    simp only [List.length_nil] at hlen
    omega
  | cons d0 ds1 =>
    cases ds1 with
    | nil =>
      exfalso
      simp only [List.length_cons, List.length_nil] at hlen
      omega
    | cons d1 ds2 =>
      obtain ⟨res, tail, hj⟩ := create_join_build_head engineOk publishRet fuel
          { count := expected.length, nodes := expected, subdev := d0 :: d1 :: ds2 }
          [] d0 d1 ds2 rfl
      exact ⟨res, concatName d0.name d1.name (d0 :: d1 :: ds2).length, tail, hj⟩

end MtdVirtConcat

namespace MtdVirtConcat

/-- C6 witness: group expecting nodes [1,2,3]; devices arrive in order
C,A,B (identifiers 3,1,2); every offer returns true, the members end as
[C,A,B], and the engine build receives [C,A,B]. -/
theorem c6_members_in_arrival_order_witness :
    (offerSequence [devC, devA, devB]
        [{ count := ([some 1, some 2, some 3] : List (Option Nat)).length,
           nodes := [some 1, some 2, some 3], subdev := [] }]).1
        = List.replicate ([devC, devA, devB] : List MtdInfo).length true
    ∧ (offerSequence [devC, devA, devB]
        [{ count := ([some 1, some 2, some 3] : List (Option Nat)).length,
           nodes := [some 1, some 2, some 3], subdev := [] }]).2
        = [{ count := ([some 1, some 2, some 3] : List (Option Nat)).length,
             nodes := [some 1, some 2, some 3], subdev := [devC, devA, devB] }]
    ∧ ([devC, devA, devB] : List MtdInfo).length
        = ([some 1, some 2, some 3] : List (Option Nat)).length
    ∧ ∃ res nm tail,
        mtd_virt_concat_create_join engineAlways publishOk (0 + 1)
            [{ count := ([some 1, some 2, some 3] : List (Option Nat)).length,
               nodes := [some 1, some 2, some 3], subdev := [devC, devA, devB] }]
          = (res, Event.build [devC, devA, devB] nm :: tail) :=
  c6_members_in_arrival_order [some 1, some 2, some 3] [devC, devA, devB]
    engineAlways publishOk 0 (by decide) (by decide)

/-- C9: for a group with at least two matched members at the head of the
list, the name handed to the engine build is the first member's name and
the second member's name joined by `"-"`, with suffix `"-+-concat"`
exactly when the group holds more than two members and `"-concat"` when
it holds exactly two. -/
theorem c9_join_name_format (engineOk : List MtdInfo → String → Bool)
    (publishRet : List MtdInfo → String → Int) (fuel : Nat)
    (item : ConcatItem) (rest : List ConcatItem)
    (d0 d1 : MtdInfo) (ds : List MtdInfo)
    (hs : item.subdev = d0 :: d1 :: ds) :
    ∃ res tail,
      mtd_virt_concat_create_join engineOk publishRet (fuel + 1) (item :: rest)
        = (res, Event.build item.subdev
            (if 2 < item.subdev.length
             then d0.name ++ "-" ++ d1.name ++ "-+-concat"
             else d0.name ++ "-" ++ d1.name ++ "-concat") :: tail) := by
  obtain ⟨res, tail, hj⟩ :=
    create_join_build_head engineOk publishRet fuel item rest d0 d1 ds hs
  refine ⟨res, tail, ?_⟩
  rw [hj, concatName_eq]

/-- C9 witness: a three-member group; the marker suffix is present. -/
theorem c9_join_name_format_witness :
    ∃ res tail,
      mtd_virt_concat_create_join engineAlways publishOk (0 + 1)
          [{ count := 3, nodes := [some 1, some 2, some 3],
             subdev := [devC, devA, devB] }]
        = (res, Event.build
            ({ count := 3, nodes := [some 1, some 2, some 3],
               subdev := [devC, devA, devB] } : ConcatItem).subdev
            (if 2 < ({ count := 3, nodes := [some 1, some 2, some 3],
                       subdev := [devC, devA, devB] } : ConcatItem).subdev.length
             then devC.name ++ "-" ++ devA.name ++ "-+-concat"
             else devC.name ++ "-" ++ devA.name ++ "-concat") :: tail) :=
  c9_join_name_format engineAlways publishOk 0
    { count := 3, nodes := [some 1, some 2, some 3],
      subdev := [devC, devA, devB] }
    [] devC devA [devB] rfl

/-- C4 (amended): when the engine build fails for the head group,
`mtd_virt_concat_create_join` frees the synthesized name and returns
`-ENXIO` WITHOUT releasing the group's member handles — no
`put_mtd_device` occurs at all on that path; the members are all
released only on the earlier error path where the name allocation
itself fails (`-ENOMEM`). -/
theorem c4_build_failure_releases_nothing
    (engineOk : List MtdInfo → String → Bool)
    (publishRet : List MtdInfo → String → Int)
    (item : ConcatItem) (rest : List ConcatItem)
    (d0 d1 : MtdInfo) (ds : List MtdInfo) (fuel : Nat)
    (hs : item.subdev = d0 :: d1 :: ds)
    (heng : engineOk item.subdev
        (concatName d0.name d1.name item.subdev.length) = false) :
    mtd_virt_concat_create_join engineOk publishRet (fuel + 1) (item :: rest)
      = (.ret (-6),
         [Event.build item.subdev (concatName d0.name d1.name item.subdev.length)])
    ∧ (∀ d, Event.put d ∉
        (mtd_virt_concat_create_join engineOk publishRet (fuel + 1) (item :: rest)).2)
    ∧ mtd_virt_concat_create_join engineOk publishRet 0 (item :: rest)
      = (.ret (-12), mtd_virt_concat_put_mtd_devices item.subdev) := by
  rw [hs] at heng
  have h1 : mtd_virt_concat_create_join engineOk publishRet (fuel + 1) (item :: rest)
      = (.ret (-6),
         [Event.build item.subdev (concatName d0.name d1.name item.subdev.length)]) := by
    simp only [mtd_virt_concat_create_join, hs]
    simp only [List.get?]
    set nm := concatName d0.name d1.name (d0 :: d1 :: ds).length with hnm
    simp [heng]
  refine ⟨h1, ?_, ?_⟩
  · intro d
    rw [h1]
    simp
  · simp only [mtd_virt_concat_create_join, hs]
    simp only [List.get?]

/-- C4 witness: the amended statement at a concrete two-member group
whose engine build fails. -/
theorem c4_build_failure_releases_nothing_witness :
    mtd_virt_concat_create_join engineNever publishOk (4 + 1)
        [{ count := 2, nodes := [some 1, some 2], subdev := [devA, devB] }]
      = (.ret (-6),
         [Event.build [devA, devB] (concatName devA.name devB.name 2)])
    ∧ (∀ d, Event.put d ∉
        (mtd_virt_concat_create_join engineNever publishOk (4 + 1)
          [{ count := 2, nodes := [some 1, some 2], subdev := [devA, devB] }]).2)
    ∧ mtd_virt_concat_create_join engineNever publishOk 0
        [{ count := 2, nodes := [some 1, some 2], subdev := [devA, devB] }]
      = (.ret (-12), mtd_virt_concat_put_mtd_devices [devA, devB]) :=
  c4_build_failure_releases_nothing engineNever publishOk
    { count := 2, nodes := [some 1, some 2], subdev := [devA, devB] } []
    devA devB [] 4 rfl rfl

/-- C8 (amended): `mtd_virt_concat_destroy_joins` processes EVERY
registry item — its `if (item->concat)` guard tests the container
pointer, which `mtd_virt_concat_create_item` sets for every listed item,
and no joined handle is stored anywhere to test — and for each item it
emits, contiguously and in this order: the unregister of the embedded
mtd, its destroy, then the release of every member handle. -/
theorem c8_teardown_processes_every_group (items : List ConcatItem)
    (item : ConcatItem) (hmem : item ∈ items) :
    ∃ pre post,
      mtd_virt_concat_destroy_joins items
        = pre ++ (Event.unregisterEmbedded :: Event.destroyEmbedded ::
            mtd_virt_concat_put_mtd_devices item.subdev) ++ post := by
  induction items with
  | nil => exact absurd hmem (List.not_mem_nil item)
  | cons x xs ih =>
    rcases List.mem_cons.mp hmem with h | h
    · subst h
      refine ⟨[], mtd_virt_concat_destroy_joins xs, ?_⟩
      simp [mtd_virt_concat_destroy_joins]
    · obtain ⟨pre, post, hp⟩ := ih h
      refine ⟨Event.unregisterEmbedded :: Event.destroyEmbedded ::
          mtd_virt_concat_put_mtd_devices x.subdev ++ pre, post, ?_⟩
      simp [mtd_virt_concat_destroy_joins, hp]

/-- C8 witness: the amended statement at a one-group registry. -/
theorem c8_teardown_processes_every_group_witness :
    ∃ pre post,
      mtd_virt_concat_destroy_joins
          [{ count := 2, nodes := [some 1, some 2], subdev := [devA, devB] }]
        = pre ++ (Event.unregisterEmbedded :: Event.destroyEmbedded ::
            mtd_virt_concat_put_mtd_devices
              ({ count := 2, nodes := [some 1, some 2],
                 subdev := [devA, devB] } : ConcatItem).subdev) ++ post :=
  c8_teardown_processes_every_group
    [{ count := 2, nodes := [some 1, some 2], subdev := [devA, devB] }]
    { count := 2, nodes := [some 1, some 2], subdev := [devA, devB] }
    (by decide)

/-- A null-identifier device walks past incomplete, null-free groups and
is appended to the first group whose expected list has a null entry. -/
theorem add_reaches_null_entry_group (d : MtdInfo) (hd : d.of_node = none) :
    ∀ (pre : List ConcatItem) (g : ConcatItem) (post : List ConcatItem),
    (∀ g2 ∈ pre, g2.count ≠ g2.subdev.length ∧ none ∉ g2.nodes) →
    g.count ≠ g.subdev.length → none ∈ g.nodes →
    mtd_virt_concat_add d (pre ++ g :: post)
      = (true, pre ++ { g with subdev := g.subdev ++ [d] } :: post) := by
  intro pre
  induction pre with
  | nil =>
    intro g post _ hg1 hg2
    simp only [List.nil_append]
    rw [add_eq_of_match d g post hg1 (by rw [hd, contains_eq_true_iff]; exact hg2)]
  | cons p pre2 ih =>
    intro g post hpre hg1 hg2
    have hp := hpre p (by simp)
    have hpc : p.nodes.contains d.of_node = false := by
      rw [hd]
      cases hb : p.nodes.contains (none : Option Nat) with
      | false => rfl
      | true => exact absurd ((contains_eq_true_iff _ _).mp hb) hp.2
    simp only [List.cons_append]
    rw [add_eq_of_skip d p (pre2 ++ g :: post) hp.1 hpc]
    rw [ih g post (fun g2 h2 => hpre g2 (by simp [h2])) hg1 hg2]

end MtdVirtConcat

namespace MtdVirtConcat

/-- C10 (amended): `mtd_virt_concat_node_create` stores each
`of_parse_phandle` result unchecked — a qualifying node with declared
references `refs` (possibly containing unresolved/NULL entries) yields
exactly the descriptor whose expected list IS `refs` — and a device
carrying no configuration identifier (NULL of_node) is accepted and
appended by `mtd_virt_concat_add` to the incomplete group holding a null
expected entry, provided the scan reaches that group: every group before
it is incomplete and free of null entries (a complete group on the way
still aborts the scan, as in C1). -/
theorem c10_null_entry_stored_and_matched (d : MtdInfo) (pre post : List ConcatItem)
    (g : ConcatItem) (hd : d.of_node = none)
    (hpre : ∀ g2 ∈ pre, g2.count ≠ g2.subdev.length ∧ none ∉ g2.nodes)
    (hg1 : g.count ≠ g.subdev.length) (hg2 : none ∈ g.nodes) :
    mtd_virt_concat_add d (pre ++ g :: post)
      = (true, pre ++ { g with subdev := g.subdev ++ [d] } :: post)
    ∧ ∀ (fuel count0 : Nat) (refs : List (Option Nat)),
        6 ≤ fuel → MIN_DEV_PER_CONCAT ≤ refs.length →
        mtd_virt_concat_node_create fuel count0
            [{ available := true, refs := refs }] []
          = ((refs.length : Int),
             [{ count := refs.length, nodes := refs, subdev := [] }]) := by
  refine ⟨add_reaches_null_entry_group d hd pre g post hpre hg1 hg2, ?_⟩
  intro fuel count0 refs hfuel hlen
  have hq : qualifies { available := true, refs := refs } = true := by
    simp only [qualifies, Bool.true_and, decide_eq_true_eq]
    exact hlen
  have hfl : (([{ available := true, refs := refs }] : List ConfigNode).filter qualifies)
      = [{ available := true, refs := refs }] := by
    simp [List.filter_cons, hq]
  unfold mtd_virt_concat_node_create
  simp only [List.isEmpty_nil, Bool.not_true, Bool.false_eq_true, if_false]
  rw [node_create_scan_ok _ fuel count0 []
      (by rw [hfl]; simp only [List.length_singleton]; omega)]
  rw [hfl]
  have h2 : ¬ (fuel - 4 * ([{ available := true, refs := refs }] :
      List ConfigNode).length < 2) := by
    simp only [List.length_singleton]
    omega
  simp [h2, lastScannedCount, itemOf]
  omega

/-- C10 witness: a registry with one incomplete null-free group followed
by an incomplete group expecting [NULL, node 3]; a device with NULL
of_node is accepted and appended to the second group. -/
theorem c10_null_entry_stored_and_matched_witness :
    mtd_virt_concat_add { name := "x", of_node := none }
        [{ count := 2, nodes := [some 1, some 2], subdev := [devA] },
         { count := 2, nodes := [none, some 3], subdev := [] }]
      = (true,
         [{ count := 2, nodes := [some 1, some 2], subdev := [devA] },
          { count := 2, nodes := [none, some 3],
            subdev := [{ name := "x", of_node := none }] }])
    ∧ ∀ (fuel count0 : Nat) (refs : List (Option Nat)),
        6 ≤ fuel → MIN_DEV_PER_CONCAT ≤ refs.length →
        mtd_virt_concat_node_create fuel count0
            [{ available := true, refs := refs }] []
          = ((refs.length : Int),
             [{ count := refs.length, nodes := refs, subdev := [] }]) :=
  c10_null_entry_stored_and_matched { name := "x", of_node := none }
    [{ count := 2, nodes := [some 1, some 2], subdev := [devA] }] []
    { count := 2, nodes := [none, some 3], subdev := [] }
    rfl (by decide) (by decide) (by decide)

end MtdVirtConcat
